import Mathlib

/-!
Verification development for the log-tailing and extraction core of
`vrc-avpro-sucks` (`src/vrc_log_reader.rs`).

The Rust source is shallowly embedded as follows.

* A file is a list of line-read results, `some s` for a successfully
  decoded line and `none` for a line whose read/decode failed (e.g.
  invalid UTF-8).  The scanner (`find_last_url`, `find_last_seek`)
  reopens the file and reads from byte 0, so it is modelled at line
  granularity over `List (Option String)`.  The tailer (`tail_file`)
  threads one shared `File` handle through several `BufReader`s, so its
  model (`RawLine`, `runTail`) additionally carries each line's byte
  length and tracks the byte cursor, including the read-ahead of
  `skip_n_lines`'s `BufReader`, whose buffered-but-unconsumed bytes are
  discarded on drop.
* The two `lazy_regex` patterns `URL_REGEX` and `SEEK_REGEX` are embedded as
  backtracking matchers (`urlCaptures`, `seekCaptures`) built from small
  combinators with Perl-style leftmost/greedy semantics, which is the
  capture semantics of the `regex` crate for these patterns.
* `chrono`'s `DateTime<Local>` is modelled as wall-clock fields plus a UTC
  offset (`LocalDT`); the host timezone is an explicit parameter
  (`LocalZone`) giving `offset_from_local_datetime`'s result.
* Process-terminating failures (`expect`, `panic!`) are modelled with
  `Except` / explicit error constructors.
-/

deriving instance DecidableEq for Except

/-! ## Character classes used by the regexes -/

/-- Unicode `White_Space` code points, the set matched by the `regex` crate's
`\s` (so `\S` is its complement). -/
def isUnicodeWS (c : Char) : Bool :=
  c.toNat ∈ [0x9, 0xA, 0xB, 0xC, 0xD, 0x20, 0x85, 0xA0, 0x1680,
    0x2000, 0x2001, 0x2002, 0x2003, 0x2004, 0x2005, 0x2006, 0x2007,
    0x2008, 0x2009, 0x200A, 0x2028, 0x2029, 0x202F, 0x205F, 0x3000]

/-- The class `[0-9.: ]` heading both regexes (the timestamp capture). -/
def tsClass (c : Char) : Bool :=
  c.isDigit || c = '.' || c = ':' || c = ' '

/-- A literal space, for the ` +` runs in both regexes. -/
def isSp (c : Char) : Bool := c = ' '

/-- The class `[ \t]` of `SEEK_REGEX`. -/
def isSpTab (c : Char) : Bool := c = ' ' || c = '\t'

/-- The class `[0-9.]` capturing the seek offset in `SEEK_REGEX`. -/
def isDigitDot (c : Char) : Bool := c.isDigit || c = '.'

/-- The regex metacharacter `.` (no DOTALL flag): any character but `\n`. -/
def anyNotNL (c : Char) : Bool := !(c = '\n')

/-! ## Backtracking matcher combinators

`SEEK_REGEX` and `URL_REGEX` use only literals, character classes, greedy
`+` / `*` / `?`, ordered alternation and anchors, so they are embedded with
continuation-passing combinators that try the greedy choice first and
backtrack on failure of the continuation, exactly as the patterns behave
under the regex crate's leftmost-first capture semantics. -/

/-- Match a literal character sequence at the head of the input. -/
def stripLit : List Char → List Char → Option (List Char)
  | [], cs => some cs
  | _ :: _, [] => none
  | p :: ps, c :: cs => if c = p then stripLit ps cs else none

/-- Split off the maximal run of class characters at the head of the input. -/
def splitRun (p : Char → Bool) : List Char → List Char × List Char
  | [] => ([], [])
  | c :: cs =>
    if p c then
      let r := splitRun p cs
      (c :: r.1, r.2)
    else ([], c :: cs)

/-- Backtracking descent for greedy `+`: `rr` is the reversed remaining run;
try the continuation `k` on the full run, then give characters back one at a
time.  An empty run is a failure (`+` needs at least one character). -/
def btDescendRev (k : List Char → List Char → Option α) :
    List Char → List Char → Option α
  | [], _ => none
  | c :: rr, rest =>
    match k ((c :: rr).reverse) rest with
    | some a => some a
    | none => btDescendRev k rr (c :: rest)

/-- Backtracking descent for greedy `*`: like `btDescendRev` but an empty
run is allowed. -/
def btDescendRevStar (k : List Char → List Char → Option α) :
    List Char → List Char → Option α
  | [], rest => k [] rest
  | c :: rr, rest =>
    match k ((c :: rr).reverse) rest with
    | some a => some a
    | none => btDescendRevStar k rr (c :: rest)

/-- Greedy `class+` with backtracking: `k` receives the consumed run and the
remaining input. -/
def plusBT (p : Char → Bool) (cs : List Char)
    (k : List Char → List Char → Option α) : Option α :=
  btDescendRev k (splitRun p cs).1.reverse (splitRun p cs).2

/-- Greedy `class*` with backtracking. -/
def starBT (p : Char → Bool) (cs : List Char)
    (k : List Char → List Char → Option α) : Option α :=
  btDescendRevStar k (splitRun p cs).1.reverse (splitRun p cs).2

/-- The regex `.` applied once: consume any single non-newline character. -/
def oneCharNotNL (cs : List Char) (k : Char → List Char → Option α) : Option α :=
  match cs with
  | [] => none
  | c :: rest => if c = '\n' then none else k c rest

/-- Ordered alternation of two literals, `(A|B)`, with backtracking into the
continuation: try `A` plus continuation first, then `B`. -/
def alt2Lit (a b : List Char) (cs : List Char)
    (k : List Char → List Char → Option α) : Option α :=
  match stripLit a cs, stripLit b cs with
  | some ra, some rb =>
    (match k a ra with
     | some v => some v
     | none => k b rb)
  | some ra, none => k a ra
  | none, some rb => k b rb
  | none, none => none

/-- Greedy `s?` (for `https?`): try consuming an `s` first. -/
def optSChar (cs : List Char) (k : List Char → List Char → Option α) : Option α :=
  match cs with
  | 's' :: rest =>
    (match k ['s'] rest with
     | some v => some v
     | none => k [] cs)
  | _ => k [] cs

/-- Substring containment test (used only to state claim-side shape
predicates about literal phrases). -/
def containsSub (pat : List Char) : List Char → Bool
  | [] => (stripLit pat []).isSome
  | c :: cs => (stripLit pat (c :: cs)).isSome || containsSub pat cs

/-! ## Timestamps: `chrono` model -/

/-- Wall-clock fields of a `chrono::NaiveDateTime` (sub-second precision and
negative years are never produced by the parsing format used here). -/
structure NaiveDT where
  y : Nat
  mo : Nat
  d : Nat
  h : Nat
  mi : Nat
  s : Nat
deriving DecidableEq, Repr

/-- A `chrono::DateTime<Local>`: the local wall-clock fields together with
the UTC offset the timezone resolved them to. -/
structure LocalDT where
  naiveLocal : NaiveDT
  offsetSec : Int
deriving DecidableEq, Repr

/-- Result of `TimeZone::offset_from_local_datetime` (chrono's
`MappedLocalTime`): a local wall-clock time maps to zero, one or two
offsets. -/
inductive MappedLocal where
  | notMapped : MappedLocal
  | unique (off : Int) : MappedLocal
  | ambiguous (early late : Int) : MappedLocal
deriving DecidableEq, Repr

/-- The host's local timezone, abstracted as the map chrono queries when
resolving a naive local datetime. -/
structure LocalZone where
  resolve : NaiveDT → MappedLocal

/-- A fixed-offset zone (UTC-like): every wall-clock time maps uniquely to
offset 0.  Used to instantiate concrete examples. -/
def trivialZone : LocalZone := ⟨fun _ => .unique 0⟩

/-- Chrono's `MappedLocalTime::earliest`, as called by `parse_timestamp`. -/
def mappedEarliest : MappedLocal → Option Int
  | .notMapped => none
  | .unique off => some off
  | .ambiguous early _ => some early

/-- Gregorian leap-year rule (chrono's calendar). -/
def isLeap (y : Nat) : Bool :=
  (y % 4 = 0 && y % 100 ≠ 0) || y % 400 = 0

/-- Days in a month of the proleptic Gregorian calendar. -/
def daysInMonth (y mo : Nat) : Nat :=
  if mo = 2 then (if isLeap y then 29 else 28)
  else if mo = 4 || mo = 6 || mo = 9 || mo = 11 then 30
  else 31

/-- Calendar validity check performed by chrono when materialising parsed
fields into a `NaiveDateTime`. -/
def validDate (y mo d : Nat) : Bool :=
  1 ≤ mo && mo ≤ 12 && 1 ≤ d && d ≤ daysInMonth y mo

/-- Numeric value of a digit character. -/
def digitVal (c : Char) : Nat := c.toNat - 48

/-- Greedy digit scan, at most `m` further digits, accumulator `acc`
(chrono's numeric-item scanner: up to the item's maximal width). -/
def scanDigitsAux : Nat → List Char → Nat → Nat × List Char
  | 0, cs, acc => (acc, cs)
  | _ + 1, [], acc => (acc, [])
  | m + 1, c :: cs, acc =>
    if c.isDigit then scanDigitsAux m cs (acc * 10 + digitVal c)
    else (acc, c :: cs)

/-- Scan a numeric field of at most `mx` digits, requiring at least one
digit.  Models chrono's lenient numeric parsing: zero-padding is not
required, so e.g. `%m` accepts both `04` and `4`. -/
def scanNum (mx : Nat) (cs : List Char) : Option (Nat × List Char) :=
  match cs with
  | [] => none
  | c :: rest =>
    if c.isDigit then some (scanDigitsAux (mx - 1) rest (digitVal c))
    else none

/-- Consume one expected literal character (chrono `Item::Literal`). -/
def expectChar (c : Char) : List Char → Option (List Char)
  | [] => none
  | d :: cs => if d = c then some cs else none

/-- Chrono `Item::Space`: skip any run of whitespace, possibly empty. -/
def skipWS : List Char → List Char
  | [] => []
  | c :: cs => if isUnicodeWS c then skipWS cs else c :: cs

/-- Modelled from chrono's
`NaiveDateTime::parse_from_str(s, "%Y.%m.%d %H:%M:%S")` as called by
`parse_timestamp`: numeric fields are scanned greedily up to their maximal
width but accept fewer digits than the zero-padded width; literal `.` and
`:` must match exactly; the format's space is a whitespace-skipping item;
the whole input must be consumed; the fields must form a calendar-valid
date-time.  Not modelled (unexercised by any theorem below): signed years,
the leap-second reading of `%S = 60`, and whitespace tolerance around
numeric items. -/
def parseChronoNaive (s : String) : Option NaiveDT :=
  match scanNum 4 s.data with
  | none => none
  | some (y, r1) =>
  match expectChar '.' r1 with
  | none => none
  | some r2 =>
  match scanNum 2 r2 with
  | none => none
  | some (mo, r3) =>
  match expectChar '.' r3 with
  | none => none
  | some r4 =>
  match scanNum 2 r4 with
  | none => none
  | some (d, r5) =>
  match scanNum 2 (skipWS r5) with
  | none => none
  | some (h, r6) =>
  match expectChar ':' r6 with
  | none => none
  | some r7 =>
  match scanNum 2 r7 with
  | none => none
  | some (mi, r8) =>
  match expectChar ':' r8 with
  | none => none
  | some r9 =>
  match scanNum 2 r9 with
  | none => none
  | some (sec, r10) =>
  if r10 = [] ∧ validDate y mo d ∧ h ≤ 23 ∧ mi ≤ 59 ∧ sec ≤ 59 then
    some ⟨y, mo, d, h, mi, sec⟩
  else none

/-- Embedding of `parse_timestamp` (src/vrc_log_reader.rs:33-44): parse the
text as a naive local datetime, then resolve it in the local timezone with
`Local.from_local_datetime(..).earliest()`; each `expect` is a fatal error
modelled as `Except.error` with the source's message. -/
def parse_timestamp (Z : LocalZone) (s : String) : Except String LocalDT :=
  match parseChronoNaive s with
  | none => .error "Failed to parse timestamp"
  | some t =>
    match mappedEarliest (Z.resolve t) with
    | none => .error "Failed to convert timestamp to local time"
    | some off => .ok ⟨t, off⟩

/-- Character for a single decimal digit value. -/
def digitChar (n : Nat) : Char := Char.ofNat (48 + n)

/-- Two-digit zero-padded decimal rendering. -/
def pad2 (n : Nat) : List Char := [digitChar (n / 10), digitChar (n % 10)]

/-- Four-digit zero-padded decimal rendering. -/
def pad4 (n : Nat) : List Char :=
  [digitChar (n / 1000), digitChar (n / 100 % 10), digitChar (n / 10 % 10),
    digitChar (n % 10)]

/-- Zero-padded formatting of wall-clock fields in the log's
`YYYY.MM.DD HH:MM:SS` shape: chrono's rendering of `%Y.%m.%d %H:%M:%S` for
years up to 9999, used to express the reformat-in-local-time round trip. -/
def formatTS (t : NaiveDT) : String :=
  (pad4 t.y ++ ['.'] ++ pad2 t.mo ++ ['.'] ++ pad2 t.d ++ [' '] ++
    pad2 t.h ++ [':'] ++ pad2 t.mi ++ [':'] ++ pad2 t.s).asString

/-- Claim-side checker, following the spec's words: the text is *exactly*
`YYYY.MM.DD HH:MM:SS` with zero-padded fields, literal dots and colons and
a single space. -/
def exactTimestampFormat (s : String) : Bool :=
  match s.data with
  | [y1, y2, y3, y4, p1, m1, m2, p2, d1, d2, sp, h1, h2, c1, n1, n2, c2, s1, s2] =>
    y1.isDigit && y2.isDigit && y3.isDigit && y4.isDigit && p1 = '.' &&
    m1.isDigit && m2.isDigit && p2 = '.' && d1.isDigit && d2.isDigit &&
    sp = ' ' && h1.isDigit && h2.isDigit && c1 = ':' && n1.isDigit &&
    n2.isDigit && c2 = ':' && s1.isDigit && s2.isDigit
  | _ => false

/-! ## Pattern extraction -/

/-- Embedding of the `FoundSeek` struct; `seek_offset` (an `f64` in the
source) is modelled as the exact rational value of the captured decimal
text, i.e. `f64` rounding is not modelled. -/
structure FoundSeek where
  timestamp : LocalDT
  seek_offset : ℚ
deriving DecidableEq, Repr

/-- Embedding of the `FoundUrl` struct. -/
structure FoundUrl where
  timestamp : LocalDT
  url : String
  found_url_on_line : Nat
deriving DecidableEq, Repr

/-- The two capture groups `URL_REGEX` exposes (group 1 timestamp, group 2
url). -/
structure UrlCaps where
  ts : String
  url : String
deriving DecidableEq, Repr

/-- The capture groups of `SEEK_REGEX` used by the source (group 1
timestamp, group 4 offset). -/
structure SeekCaps where
  ts : String
  offset : String
deriving DecidableEq, Repr

/-- Embedding of `URL_REGEX.captures` (src/vrc_log_reader.rs:114-116):
`^([0-9.: ]+) Log +- +\[Video Playback\] Attempting to resolve URL
'(https?://\S+)'` — anchored at the line start, no end anchor, greedy
backtracking throughout. -/
def urlCaptures (line : String) : Option UrlCaps :=
  plusBT tsClass line.data (fun g1 rest =>
  (stripLit " Log".data rest).bind (fun rest =>
  plusBT isSp rest (fun _ rest =>
  (stripLit "-".data rest).bind (fun rest =>
  plusBT isSp rest (fun _ rest =>
  (stripLit "[Video Playback] Attempting to resolve URL '".data rest).bind (fun rest =>
  (stripLit "http".data rest).bind (fun rest =>
  optSChar rest (fun sPart rest =>
  (stripLit "://".data rest).bind (fun rest =>
  plusBT (fun c => !(isUnicodeWS c)) rest (fun body rest =>
  (stripLit "'".data rest).map (fun _ =>
  ⟨g1.asString, ("http".data ++ sPart ++ "://".data ++ body).asString⟩)))))))))))

/-- Tail of `SEEK_REGEX` after the phrase alternation: `. Updating to
([0-9.]+)$` — an unescaped `.` (any non-newline character), the literal
` Updating to `, the captured offset run, end of line. -/
def seekAfterPhrase (g1 : List Char) (rest : List Char) : Option SeekCaps :=
  oneCharNotNL rest (fun _c rest =>
  (stripLit " Updating to ".data rest).bind (fun rest =>
  plusBT isDigitDot rest (fun g4 rest =>
  if rest = [] then some ⟨g1.asString, g4.asString⟩ else none)))

/-- Middle of `SEEK_REGEX` after the `(INFO|DEBUG)` alternation:
`[ \t]+TVManager \(.*\)\] (Sync enforcement|Paused drift threshold
exceeded)` then the tail. -/
def seekAfterTag (g1 : List Char) (rest : List Char) : Option SeekCaps :=
  plusBT isSpTab rest (fun _ rest =>
  (stripLit "TVManager (".data rest).bind (fun rest =>
  starBT anyNotNL rest (fun _label rest =>
  (stripLit ")] ".data rest).bind (fun rest =>
  alt2Lit "Sync enforcement".data "Paused drift threshold exceeded".data rest (fun _ph rest =>
  seekAfterPhrase g1 rest)))))

/-- Embedding of `SEEK_REGEX.captures` (src/vrc_log_reader.rs:121-123):
`^([0-9.: ]+) Log +- +\[AT (INFO|DEBUG)[ \t]+TVManager \(.*\)\]
(Sync enforcement|Paused drift threshold exceeded). Updating to ([0-9.]+)$`
— anchored both ends, greedy backtracking; note the unescaped `.` after
the alternation: any non-newline character. -/
def seekCaptures (line : String) : Option SeekCaps :=
  plusBT tsClass line.data (fun g1 rest =>
  (stripLit " Log".data rest).bind (fun rest =>
  plusBT isSp rest (fun _ rest =>
  (stripLit "-".data rest).bind (fun rest =>
  plusBT isSp rest (fun _ rest =>
  (stripLit "[AT ".data rest).bind (fun rest =>
  alt2Lit "INFO".data "DEBUG".data rest (fun _tag rest =>
  seekAfterTag g1 rest)))))))

/-- Decimal value of a digit run. -/
def digitsToNat : List Char → Nat → Nat
  | [], acc => acc
  | c :: cs, acc => digitsToNat cs (acc * 10 + digitVal c)

/-- Modelled from Rust's `str::parse::<f64>` restricted to inputs drawn
from `[0-9.]+` (all `SEEK_REGEX` can capture): a significand
`Digits | Digits . Digits? | . Digits` parses, anything else (bare `.`,
two dots) fails.  The numeric value is kept exact in `ℚ`;
`f64` rounding is not modelled. -/
def parseF64 (cs : List Char) : Option ℚ :=
  match cs.splitOn '.' with
  | [i] => if i = [] then none else some (mkRat (digitsToNat i 0) 1)
  | [i, f] =>
    if i = [] ∧ f = [] then none
    else some (mkRat (digitsToNat (i ++ f) 0) (10 ^ f.length))
  | _ => none

/-- Embedding of `try_match_seek_line` (src/vrc_log_reader.rs:14-31): apply
`SEEK_REGEX`; on a match, parse group 1 as a timestamp and group 4 as an
`f64`, each failure being a fatal `expect` (modelled as `.error` with the
source's message); `.ok none` is a silent non-match. -/
def try_match_seek_line (Z : LocalZone) (line : String) :
    Except String (Option FoundSeek) :=
  match seekCaptures line with
  | none => .ok none
  | some caps =>
    match parse_timestamp Z caps.ts with
    | .error e => .error e
    | .ok dt =>
      match parseF64 caps.offset.data with
      | none => .error "Failed to parse seek offset as f64"
      | some off => .ok (some ⟨dt, off⟩)

/-- Embedding of `try_match_url_line` (src/vrc_log_reader.rs:46-59): apply
`URL_REGEX`; on a match, parse group 1 as a timestamp (fatal on failure)
and build the `FoundUrl` from group 2 and the given line number. -/
def try_match_url_line (Z : LocalZone) (line : String) (line_number : Nat) :
    Except String (Option FoundUrl) :=
  match urlCaptures line with
  | none => .ok none
  | some caps =>
    match parse_timestamp Z caps.ts with
    | .error e => .error e
    | .ok dt => .ok (some ⟨dt, caps.url, line_number⟩)

/-! ## History scanner -/

/-- The successfully decoded lines of a file, in order; `find_last_url` and
`find_last_seek` only see (and only count) these. -/
def okLines (file : List (Option String)) : List String := file.filterMap id

/-- Loop body of `VrcLogReader::find_last_url` (src/vrc_log_reader.rs:240-265):
walk the lines; a failed read (`Err`) is skipped without incrementing the
count; an `Ok` line bumps the 1-based count and is matched against the URL
pattern, keeping the last match.  Returns the last match and the final
count (the source stores the count in `lines_read_initially`). -/
def findLastUrlAux (Z : LocalZone) :
    List (Option String) → Nat → Option FoundUrl →
    Except String (Option FoundUrl × Nat)
  | [], c, acc => .ok (acc, c)
  | none :: rest, c, acc => findLastUrlAux Z rest c acc
  | some l :: rest, c, acc =>
    match try_match_url_line Z l (c + 1) with
    | .error e => .error e
    | .ok none => findLastUrlAux Z rest (c + 1) acc
    | .ok (some u) => findLastUrlAux Z rest (c + 1) (some u)

/-- Embedding of `VrcLogReader::find_last_url`. -/
def find_last_url (Z : LocalZone) (file : List (Option String)) :
    Except String (Option FoundUrl × Nat) :=
  findLastUrlAux Z file 0 none

/-- Loop body of `VrcLogReader::find_last_seek`
(src/vrc_log_reader.rs:267-286): same walk, but lines whose count is
strictly below `not_before_this_line` are skipped before matching. -/
def findLastSeekAux (Z : LocalZone) (n : Nat) :
    List (Option String) → Nat → Option FoundSeek →
    Except String (Option FoundSeek)
  | [], _, acc => .ok acc
  | none :: rest, c, acc => findLastSeekAux Z n rest c acc
  | some l :: rest, c, acc =>
    if c + 1 < n then findLastSeekAux Z n rest (c + 1) acc
    else
      match try_match_seek_line Z l with
      | .error e => .error e
      | .ok none => findLastSeekAux Z n rest (c + 1) acc
      | .ok (some s) => findLastSeekAux Z n rest (c + 1) (some s)

/-- Embedding of `VrcLogReader::find_last_seek`. -/
def find_last_seek (Z : LocalZone) (file : List (Option String)) (n : Nat) :
    Except String (Option FoundSeek) :=
  findLastSeekAux Z n file 0 none

/-- Embedding of the `UrlAndSeekResult` enum. -/
inductive UrlAndSeekResult where
  | Nothing (linesScanned : Nat) : UrlAndSeekResult
  | Url (u : FoundUrl) (linesScanned : Nat) : UrlAndSeekResult
  | UrlAndSeek (u : FoundUrl) (s : FoundSeek) (linesScanned : Nat) : UrlAndSeekResult
deriving DecidableEq, Repr

/-- Embedding of `VrcLogReader::get_latest_url_and_seek`
(src/vrc_log_reader.rs:225-238): pass 1 finds the last URL and the line
count; if a URL was found, pass 2 re-reads the file for the last seek at or
after the URL's line. -/
def get_latest_url_and_seek (Z : LocalZone) (file : List (Option String)) :
    Except String UrlAndSeekResult :=
  match find_last_url Z file with
  | .error e => .error e
  | .ok (none, c) => .ok (.Nothing c)
  | .ok (some u, c) =>
    match find_last_seek Z file u.found_url_on_line with
    | .error e => .error e
    | .ok none => .ok (.Url u c)
    | .ok (some s) => .ok (.UrlAndSeek u s c)

/-- Line count carried by a `UrlAndSeekResult` (every variant carries
it). -/
def resLineCount : UrlAndSeekResult → Nat
  | .Nothing c => c
  | .Url _ c => c
  | .UrlAndSeek _ _ c => c

/-- The URL event carried by a `UrlAndSeekResult`, if any. -/
def resUrl : UrlAndSeekResult → Option FoundUrl
  | .Nothing _ => none
  | .Url u _ => some u
  | .UrlAndSeek u _ _ => some u

/-! ## Byte-level line splitting (for the line-count claim) -/

/-- Helper for `linesOf`: `racc` is the current line accumulated in
reverse. -/
def linesOfAux : List Char → List Char → List String
  | [], racc => if racc = [] then [] else [racc.reverse.asString]
  | '\n' :: cs, racc =>
    (match racc with
     | '\r' :: r => r.reverse.asString
     | _ => racc.reverse.asString) :: linesOfAux cs []
  | c :: cs, racc => linesOfAux cs (c :: racc)

/-- Rust `BufRead::lines` on decoded file contents: split at `\n`, strip a
`\r` preceding a `\n`, and yield a final fragment not terminated by a
newline as a line of its own. -/
def linesOf (contents : List Char) : List String := linesOfAux contents []

/-- Number of newline-terminated lines in the raw contents (the claim-side
notion of line count). -/
def countNewlines (contents : List Char) : Nat := contents.count '\n'

/-- The history scan applied to raw (fully decodable) file contents. -/
def scanContents (Z : LocalZone) (contents : List Char) :
    Except String UrlAndSeekResult :=
  get_latest_url_and_seek Z ((linesOf contents).map some)

/-- A URL hit of the scan at 1-based line `k`: the `k`-th decoded line
matches the URL pattern (with `k` as the supplied line number) and yields
`u`. -/
def urlHit (Z : LocalZone) (lines : List String) (k : Nat) (u : FoundUrl) : Prop :=
  1 ≤ k ∧ ∃ l, lines.get? (k - 1) = some l ∧ try_match_url_line Z l k = .ok (some u)

/-- A seek hit at 1-based line `k` of the file's decoded lines. -/
def seekHit (Z : LocalZone) (file : List (Option String)) (k : Nat)
    (s : FoundSeek) : Prop :=
  1 ≤ k ∧ ∃ l, (okLines file).get? (k - 1) = some l ∧
    try_match_seek_line Z l = .ok (some s)

/-! ## Incremental tailer -/

/-- The two process-terminating panics `tail_file` can hit in its reading
loops: `skip_n_lines`'s "File is smaller than the given line number" and
the `line.unwrap()` on a failed line read. -/
inductive TailPanic where
  | fileTooSmall : TailPanic
  | badLine : TailPanic
deriving DecidableEq, Repr

/-- One raw line of the log file as the tailer's readers see it: `bytes`
is the length in bytes of the line *including* its `\n` terminator (for a
final unterminated line, just its content), carried so that the byte
cursor of the shared `File` handle can be modelled; `decoded` is what
`BufRead::lines` yields for it — `some s` for a decoded line, `none` for a
read/decode failure (e.g. invalid UTF-8). -/
structure RawLine where
  bytes : Nat
  decoded : Option String
deriving DecidableEq, Repr

/-- Total byte size of a file. -/
def totalBytes (file : List RawLine) : Nat := (file.map RawLine.bytes).sum

/-- Byte offset just past the `n`-th line (the end of what `skip_n_lines`
consumes). -/
def prefixBytes (file : List RawLine) (n : Nat) : Nat :=
  ((file.take n).map RawLine.bytes).sum

/-- `BufReader`'s default buffer capacity (8 KiB), the read-ahead unit of
`BufReader::new` as used by `skip_n_lines` and `tail_file`. -/
def bufCap : Nat := 8192

/-- Number of `fill_buf` chunk reads needed to reach byte offset `e`. -/
def ceilChunks (e : Nat) : Nat := (e + bufCap - 1) / bufCap

/-- Position of the shared `File` cursor after `skip_n_lines(&f, n)`
(src/vrc_log_reader.rs:176-185): the skip's own `BufReader::new(file)`
read-ahead-buffers whole `bufCap`-sized chunks while consuming `n` lines,
and the buffered-but-unconsumed bytes are discarded when it is dropped, so
the cursor lands on the chunk boundary (or EOF) covering the end of line
`n` — in general *past* line `n`, losing the buffered window.  For `n = 0`
the loop body never runs, no read happens, and the cursor stays at 0. -/
def skipCursor (file : List RawLine) (n : Nat) : Nat :=
  if n = 0 then 0
  else min (totalBytes file) (bufCap * ceilChunks (prefixBytes file n))

/-- The lines a fresh `BufReader` over the shared handle yields when the
cursor is at byte offset `P`: the suffix of whole lines starting there.
`none` when `P` falls strictly inside a line — the reader would then see a
fragment of that line, which this line-record model does not represent
(no theorem below exercises that case). -/
def linesFrom : List RawLine → Nat → Option (List RawLine)
  | file, 0 => some file
  | [], _ + 1 => some []
  | l :: rest, P + 1 =>
    if P + 1 < l.bytes then none else linesFrom rest (P + 1 - l.bytes)

/-- One `BufReader::lines().enumerate()` pass (src/vrc_log_reader.rs:146-150
and 159-164): deliver each line paired with `enumerate`-index-plus-`base`;
a failed line read is `line.unwrap()`, a panic. -/
def readLines : List RawLine → Nat → Except TailPanic (List (String × Nat))
  | [], _ => .ok []
  | l :: rest, i =>
    match l.decoded with
    | none => .error .badLine
    | some s =>
      match readLines rest (i + 1) with
      | .error e => .error e
      | .ok ds => .ok ((s, i) :: ds)

/-- The notification loop of `tail_file` (src/vrc_log_reader.rs:153-171):
each snapshot is the file's line list when a notification is handled.  A
new `BufReader` over the *same* `File` handle resumes at the persisted
byte cursor, so only lines past the cursor are read — and they are
numbered by `enumerate` starting from 0 again.  The cursor advances to the
snapshot's end.  `none` propagates the unmodelled mid-line-resume case of
`linesFrom`. -/
def tailSteps : Nat → List (List RawLine) →
    Option (Except TailPanic (List (String × Nat)))
  | _, [] => some (.ok [])
  | cursor, s :: rest =>
    match linesFrom s cursor with
    | none => none
    | some visible =>
      match readLines visible 0 with
      | .error e => some (.error e)
      | .ok ds =>
        match tailSteps (max cursor (totalBytes s)) rest with
        | none => none
        | some (.error e) => some (.error e)
        | some (.ok more) => some (.ok (ds ++ more))

/-- Embedding of `tail_file` (src/vrc_log_reader.rs:125-174) over one
shared `File` cursor: `skip_n_lines` panics iff the file has fewer than
`start_after_line` lines (only `Iterator::next` returning `None` panics,
so read-error lines still count); otherwise it leaves the cursor at
`skipCursor` — past the skipped lines *and* past whatever its read-ahead
buffered and discarded.  The initial catch-up then delivers the lines
visible from that cursor, numbered `enumerate`-index plus
`start_after_line`, and each notification snapshot is read from the
cursor the previous read left behind.  The result collects every
`callback(line, number)` invocation of a session or the panic that ended
it (deliveries made before a panic are not collected); the outer `Option`
is `none` only when a read would resume mid-line, a case this model
leaves undefined rather than misrepresents. -/
def runTail (init : List RawLine) (start_after_line : Nat)
    (snaps : List (List RawLine)) :
    Option (Except TailPanic (List (String × Nat))) :=
  if init.length < start_after_line then some (.error .fileTooSmall)
  else
    match linesFrom init (skipCursor init start_after_line) with
    | none => none
    | some visible =>
      match readLines visible start_after_line with
      | .error e => some (.error e)
      | .ok first =>
        match tailSteps (totalBytes init) snaps with
        | none => none
        | some (.error e) => some (.error e)
        | some (.ok more) => some (.ok (first ++ more))

/-! ## Auxiliary definitions used to state and prove the claims -/

/-- Generic shape of the two scanner loops: walk the (decoded) lines with a
1-based counter, apply `f` to each, keep the last `some`, stop at the first
error. -/
def lastHitAuxE {β : Type} (f : Nat → String → Except String (Option β)) :
    List String → Nat → Option β → Except String (Option β)
  | [], _, acc => .ok acc
  | l :: ls, c, acc =>
    match f (c + 1) l with
    | .error e => .error e
    | .ok none => lastHitAuxE f ls (c + 1) acc
    | .ok (some b) => lastHitAuxE f ls (c + 1) (some b)

/-- The seek pass is the generic fold over decoded lines with the
`not_before_this_line` guard. -/
def seekStep (Z : LocalZone) (n : Nat) : Nat → String → Except String (Option FoundSeek) :=
  fun k l => if k < n then .ok none else try_match_seek_line Z l

/-- The URL pass is the generic fold where the matcher receives the line
number and no guard applies. -/
def urlStep (Z : LocalZone) : Nat → String → Except String (Option FoundUrl) :=
  fun k l => try_match_url_line Z l k

/-- The URL example line of the spec (§8). -/
def urlExampleLine : String :=
  "2024.04.14 21:25:34 Log        -  [Video Playback] Attempting to resolve URL 'http://example.com/s.m3u8'"

/-- The seek example line of the spec (§8); the whitespace between `INFO`
and `TVManager` is a tab, as in the source's comment. -/
def seekExampleLine : String :=
  "2024.04.22 17:55:53 Log        -  [AT INFO\tTVManager (Theatre 1)] Sync enforcement. Updating to 116.47"

/-- The seek example line with the period after the phrase replaced by an
`X`. -/
def seekBadLine : String :=
  "2024.04.22 17:55:53 Log        -  [AT INFO\tTVManager (Theatre 1)] Sync enforcementX Updating to 116.47"

/-! ## Soundness of the matcher combinators -/

theorem stripLit_sound : ∀ (ps cs rest : List Char),
    stripLit ps cs = some rest → cs = ps ++ rest := by
  intro ps
  induction ps with
  | nil =>
    intro cs rest h
    simp only [stripLit, Option.some.injEq] at h
    simp [h]
  | cons p ps ih =>
    intro cs rest h
    cases cs with
    | nil => simp [stripLit] at h
    | cons c cs =>
      simp only [stripLit] at h
      split at h
      · next hc =>
        subst hc
        simpa using ih cs rest h
      · exact absurd h (by simp)

theorem splitRun_sound : ∀ (p : Char → Bool) (cs run rest : List Char),
    splitRun p cs = (run, rest) →
    cs = run ++ rest ∧ ∀ c ∈ run, p c = true := by
  intro p cs
  induction cs with
  | nil =>
    intro run rest h
    simp only [splitRun, Prod.mk.injEq] at h
    simp [← h.1, ← h.2]
  | cons c cs ih =>
    intro run rest h
    simp only [splitRun] at h
    split at h
    · next hp =>
      simp only [Prod.mk.injEq] at h
      obtain ⟨h1, h2⟩ := h
      obtain ⟨ha, hb⟩ := ih (splitRun p cs).1 (splitRun p cs).2 rfl
      subst h1 h2
      constructor
      · simpa using ha
      · intro x hx
        rcases List.mem_cons.mp hx with hx | hx
        · exact hx ▸ hp
        · exact hb x hx
    · next hp =>
      simp only [Prod.mk.injEq] at h
      simp [← h.1, ← h.2]

theorem btDescendRev_sound {α : Type} (k : List Char → List Char → Option α) :
    ∀ (rr rest : List Char) (a : α), btDescendRev k rr rest = some a →
    ∃ run rest2, rr.reverse ++ rest = run ++ rest2 ∧ run ≠ [] ∧
      (∀ c ∈ run, c ∈ rr) ∧ k run rest2 = some a := by
  intro rr
  induction rr with
  | nil => intro rest a h; simp [btDescendRev] at h
  | cons c rr ih =>
    intro rest a h
    simp only [btDescendRev] at h
    cases hk : k ((c :: rr).reverse) rest with
    | some v =>
      rw [hk] at h
      refine ⟨(c :: rr).reverse, rest, rfl, by simp, ?_, ?_⟩
      · intro x hx
        simpa using List.mem_reverse.mp hx
      · cases h; exact hk
    | none =>
      rw [hk] at h
      obtain ⟨run, rest2, heq, hne, hmem, hkr⟩ := ih (c :: rest) a h
      refine ⟨run, rest2, ?_, hne, ?_, hkr⟩
      · rw [← heq]; simp
      · intro x hx
        exact List.mem_cons_of_mem c (hmem x hx)

theorem btDescendRevStar_sound {α : Type} (k : List Char → List Char → Option α) :
    ∀ (rr rest : List Char) (a : α), btDescendRevStar k rr rest = some a →
    ∃ run rest2, rr.reverse ++ rest = run ++ rest2 ∧
      (∀ c ∈ run, c ∈ rr) ∧ k run rest2 = some a := by
  intro rr
  induction rr with
  | nil =>
    intro rest a h
    simp only [btDescendRevStar] at h
    exact ⟨[], rest, by simp, by simp, h⟩
  | cons c rr ih =>
    intro rest a h
    simp only [btDescendRevStar] at h
    cases hk : k ((c :: rr).reverse) rest with
    | some v =>
      rw [hk] at h
      refine ⟨(c :: rr).reverse, rest, rfl, ?_, ?_⟩
      · intro x hx
        simpa using List.mem_reverse.mp hx
      · cases h; exact hk
    | none =>
      rw [hk] at h
      obtain ⟨run, rest2, heq, hmem, hkr⟩ := ih (c :: rest) a h
      refine ⟨run, rest2, ?_, ?_, hkr⟩
      · rw [← heq]; simp
      · intro x hx
        exact List.mem_cons_of_mem c (hmem x hx)

theorem plusBT_sound {α : Type} (p : Char → Bool) (cs : List Char)
    (k : List Char → List Char → Option α) (a : α) :
    plusBT p cs k = some a →
    ∃ run rest, cs = run ++ rest ∧ run ≠ [] ∧
      (∀ c ∈ run, p c = true) ∧ k run rest = some a := by
  intro h
  rw [plusBT] at h
  obtain ⟨hsplit, hall⟩ :=
    splitRun_sound p cs (splitRun p cs).1 (splitRun p cs).2 rfl
  obtain ⟨run, rest2, heq, hne, hmem, hkr⟩ :=
    btDescendRev_sound k (splitRun p cs).1.reverse (splitRun p cs).2 a h
  rw [List.reverse_reverse] at heq
  refine ⟨run, rest2, by rw [hsplit, heq], hne, ?_, hkr⟩
  intro c hc
  exact hall c (List.mem_reverse.mp (hmem c hc))

theorem starBT_sound {α : Type} (p : Char → Bool) (cs : List Char)
    (k : List Char → List Char → Option α) (a : α) :
    starBT p cs k = some a →
    ∃ run rest, cs = run ++ rest ∧
      (∀ c ∈ run, p c = true) ∧ k run rest = some a := by
  intro h
  rw [starBT] at h
  obtain ⟨hsplit, hall⟩ :=
    splitRun_sound p cs (splitRun p cs).1 (splitRun p cs).2 rfl
  obtain ⟨run, rest2, heq, hmem, hkr⟩ :=
    btDescendRevStar_sound k (splitRun p cs).1.reverse (splitRun p cs).2 a h
  rw [List.reverse_reverse] at heq
  refine ⟨run, rest2, by rw [hsplit, heq], ?_, hkr⟩
  intro c hc
  exact hall c (List.mem_reverse.mp (hmem c hc))

theorem oneCharNotNL_sound {α : Type} (cs : List Char)
    (k : Char → List Char → Option α) (a : α) :
    oneCharNotNL cs k = some a →
    ∃ c rest, cs = c :: rest ∧ c ≠ '\n' ∧ k c rest = some a := by
  intro h
  cases cs with
  | nil => simp [oneCharNotNL] at h
  | cons c rest =>
    simp only [oneCharNotNL] at h
    split at h
    · exact absurd h (by simp)
    · next hc => exact ⟨c, rest, rfl, hc, h⟩

theorem alt2Lit_sound {α : Type} (A B cs : List Char)
    (k : List Char → List Char → Option α) (a : α) :
    alt2Lit A B cs k = some a →
    (∃ r, cs = A ++ r ∧ k A r = some a) ∨
    (∃ r, cs = B ++ r ∧ k B r = some a) := by
  intro h
  unfold alt2Lit at h
  split at h
  · rename_i ra rb hA hB
    split at h
    · rename_i v hk
      cases h
      exact Or.inl ⟨ra, stripLit_sound A cs ra hA, hk⟩
    · rename_i hk
      exact Or.inr ⟨rb, stripLit_sound B cs rb hB, h⟩
  · rename_i ra hA hB
    exact Or.inl ⟨ra, stripLit_sound A cs ra hA, h⟩
  · rename_i rb hA hB
    exact Or.inr ⟨rb, stripLit_sound B cs rb hB, h⟩
  · exact absurd h (by simp)

/-! ## A generic last-match fold and its characterisation -/

theorem lastHitAuxE_char {β : Type} (f : Nat → String → Except String (Option β)) :
    ∀ (ls : List String) (c : Nat) (acc res : Option β),
    lastHitAuxE f ls c acc = .ok res →
    (res = acc ∧ ∀ i, (h : i < ls.length) → f (c + i + 1) (ls.get ⟨i, h⟩) = .ok none) ∨
    (∃ b i, ∃ (h : i < ls.length), res = some b ∧
      f (c + i + 1) (ls.get ⟨i, h⟩) = .ok (some b) ∧
      ∀ j, (h2 : j < ls.length) → i < j → f (c + j + 1) (ls.get ⟨j, h2⟩) = .ok none) := by
  intro ls
  induction ls with
  | nil =>
    intro c acc res h
    simp only [lastHitAuxE, Except.ok.injEq] at h
    exact Or.inl ⟨h.symm, by intro i hi; simp at hi⟩
  | cons l ls ih =>
    intro c acc res h
    simp only [lastHitAuxE] at h
    cases hf : f (c + 1) l with
    | error e => rw [hf] at h; exact absurd h (by simp)
    | ok ob =>
      rw [hf] at h
      cases ob with
      | none =>
        rcases ih (c + 1) acc res h with ⟨hres, hall⟩ | ⟨b, i, hi, hres, hhit, hlater⟩
        · refine Or.inl ⟨hres, ?_⟩
          intro i hi
          cases i with
          | zero => simpa using hf
          | succ i' =>
            have hi' : i' < ls.length := by simpa using hi
            have harith : c + (i' + 1) + 1 = c + 1 + i' + 1 := by omega
            rw [harith]
            exact hall i' hi'
        · refine Or.inr ⟨b, i + 1, by simpa using Nat.succ_lt_succ hi, hres, ?_, ?_⟩
          · have harith : c + (i + 1) + 1 = c + 1 + i + 1 := by omega
            rw [harith]
            exact hhit
          · intro j hj hij
            cases j with
            | zero => omega
            | succ j' =>
              have hj' : j' < ls.length := by simpa using hj
              have harith : c + (j' + 1) + 1 = c + 1 + j' + 1 := by omega
              rw [harith]
              exact hlater j' hj' (by omega)
      | some b0 =>
        rcases ih (c + 1) (some b0) res h with ⟨hres, hall⟩ | ⟨b, i, hi, hres, hhit, hlater⟩
        · refine Or.inr ⟨b0, 0, by simp, hres, by simpa using hf, ?_⟩
          intro j hj hij
          cases j with
          | zero => omega
          | succ j' =>
            have hj' : j' < ls.length := by simpa using hj
            have harith : c + (j' + 1) + 1 = c + 1 + j' + 1 := by omega
            rw [harith]
            exact hall j' hj'
        · refine Or.inr ⟨b, i + 1, by simpa using Nat.succ_lt_succ hi, hres, ?_, ?_⟩
          · have harith : c + (i + 1) + 1 = c + 1 + i + 1 := by omega
            rw [harith]
            exact hhit
          · intro j hj hij
            cases j with
            | zero => omega
            | succ j' =>
              have hj' : j' < ls.length := by simpa using hj
              have harith : c + (j' + 1) + 1 = c + 1 + j' + 1 := by omega
              rw [harith]
              exact hlater j' hj' (by omega)

theorem okLines_nil : okLines [] = [] := rfl

theorem okLines_cons_none (rest : List (Option String)) :
    okLines (none :: rest) = okLines rest := rfl

theorem okLines_cons_some (l : String) (rest : List (Option String)) :
    okLines (some l :: rest) = l :: okLines rest := rfl

theorem okLines_map_some (ls : List String) : okLines (ls.map some) = ls := by
  induction ls with
  | nil => rfl
  | cons l ls ih => rw [List.map_cons, okLines_cons_some, ih]

theorem exceptMap_ok {α β : Type} (f : α → β) (a : α) :
    Except.map f (.ok a : Except String α) = .ok (f a) := rfl

theorem exceptMap_error {α β : Type} (f : α → β) (e : String) :
    Except.map f (.error e : Except String α) = .error e := rfl

theorem findLastSeekAux_eq (Z : LocalZone) (n : Nat) :
    ∀ (file : List (Option String)) (c : Nat) (acc : Option FoundSeek),
    findLastSeekAux Z n file c acc = lastHitAuxE (seekStep Z n) (okLines file) c acc := by
  intro file
  induction file with
  | nil => intro c acc; rfl
  | cons o rest ih =>
    intro c acc
    cases o with
    | none => rw [okLines_cons_none]; exact ih c acc
    | some l =>
      rw [okLines_cons_some]
      simp only [findLastSeekAux, lastHitAuxE, seekStep]
      by_cases hc : c + 1 < n
      · simp only [hc, if_pos hc, if_true]
        exact ih (c + 1) acc
      · simp only [if_neg hc]
        cases htm : try_match_seek_line Z l with
        | error e => simp [htm]
        | ok ob =>
          cases ob with
          | none => simp only [htm]; exact ih (c + 1) acc
          | some s => simp only [htm]; exact ih (c + 1) (some s)

theorem findLastUrlAux_eq (Z : LocalZone) :
    ∀ (file : List (Option String)) (c : Nat) (acc : Option FoundUrl),
    findLastUrlAux Z file c acc =
    Except.map (fun r => (r, c + (okLines file).length))
      (lastHitAuxE (urlStep Z) (okLines file) c acc) := by
  intro file
  induction file with
  | nil =>
    intro c acc
    rw [okLines_nil]
    simp [findLastUrlAux, lastHitAuxE, exceptMap_ok]
  | cons o rest ih =>
    intro c acc
    cases o with
    | none => rw [okLines_cons_none]; exact ih c acc
    | some l =>
      rw [okLines_cons_some]
      simp only [findLastUrlAux, lastHitAuxE, urlStep]
      cases htm : try_match_url_line Z l (c + 1) with
      | error e => simp [htm, exceptMap_error]
      | ok ob =>
        have harith : c + (l :: okLines rest).length = (c + 1) + (okLines rest).length := by
          simp; omega
        cases ob with
        | none =>
          simp only [htm]
          rw [harith]
          exact ih (c + 1) acc
        | some u =>
          simp only [htm]
          rw [harith]
          exact ih (c + 1) (some u)

/-! ## Tailer reading-loop lemmas -/

theorem totalBytes_nil : totalBytes [] = 0 := rfl

theorem totalBytes_cons (l : RawLine) (rest : List RawLine) :
    totalBytes (l :: rest) = l.bytes + totalBytes rest := by
  simp [totalBytes]

theorem linesFrom_zero (file : List RawLine) : linesFrom file 0 = some file := by
  cases file <;> rfl

theorem linesFrom_cons_ge (l : RawLine) (rest : List RawLine) (P : Nat)
    (h1 : 1 ≤ P) (h2 : l.bytes ≤ P) :
    linesFrom (l :: rest) P = linesFrom rest (P - l.bytes) := by
  obtain ⟨Q, rfl⟩ : ∃ Q, P = Q + 1 := ⟨P - 1, by omega⟩
  simp only [linesFrom]
  rw [if_neg (by omega)]

theorem linesFrom_append : ∀ (init app : List RawLine),
    (∀ l ∈ init, 1 ≤ l.bytes) →
    linesFrom (init ++ app) (totalBytes init) = some app := by
  intro init
  induction init with
  | nil =>
    intro app _
    rw [List.nil_append, totalBytes_nil, linesFrom_zero]
  | cons l init ih =>
    intro app h
    have hl : 1 ≤ l.bytes := h l (List.mem_cons_self l init)
    have hrest : ∀ x ∈ init, 1 ≤ x.bytes := fun x hx => h x (List.mem_cons_of_mem l hx)
    rw [List.cons_append, totalBytes_cons]
    rw [linesFrom_cons_ge l (init ++ app) _ (by omega) (by omega)]
    have harith : l.bytes + totalBytes init - l.bytes = totalBytes init := by omega
    rw [harith]
    exact ih app hrest

theorem readLines_badLine : ∀ (ls : List RawLine) (base : Nat),
    (∃ l ∈ ls, l.decoded = none) → readLines ls base = .error .badLine := by
  intro ls
  induction ls with
  | nil => intro base h; simp at h
  | cons l rest ih =>
    intro base h
    rcases h with ⟨x, hx, hxd⟩
    rcases List.mem_cons.mp hx with rfl | hx'
    · simp [readLines, hxd]
    · cases hd : l.decoded with
      | none => simp [readLines, hd]
      | some s =>
        have hr := ih (base + 1) ⟨x, hx', hxd⟩
        simp [readLines, hd, hr]

theorem readLines_ok_decodable : ∀ (ls : List RawLine) (base : Nat),
    (∀ l ∈ ls, l.decoded ≠ none) → ∃ ds, readLines ls base = .ok ds := by
  intro ls
  induction ls with
  | nil => intro base _; exact ⟨[], rfl⟩
  | cons l rest ih =>
    intro base h
    have hl := h l (List.mem_cons_self l rest)
    cases hd : l.decoded with
    | none => exact absurd hd hl
    | some s =>
      obtain ⟨ds, hds⟩ := ih (base + 1) (fun x hx => h x (List.mem_cons_of_mem l hx))
      exact ⟨(s, base) :: ds, by simp [readLines, hd, hds]⟩

theorem skipCursor_zero (file : List RawLine) : skipCursor file 0 = 0 := by
  simp [skipCursor]

/-! ## Digit formatting / scanning round trip -/

theorem asString_data (l : List Char) : (List.asString l).data = l := rfl

theorem digitChar_isDigit (n : Nat) (h : n < 10) : (digitChar n).isDigit = true := by
  interval_cases n <;> decide

theorem digitVal_digitChar (n : Nat) (h : n < 10) : digitVal (digitChar n) = n := by
  interval_cases n <;> decide

theorem digitChar_not_ws (n : Nat) (h : n < 10) : isUnicodeWS (digitChar n) = false := by
  interval_cases n <;> decide

theorem scanNum_pad2 (n : Nat) (h : n < 100) (rest : List Char) :
    scanNum 2 (pad2 n ++ rest) = some (n, rest) := by
  have h1 : n / 10 < 10 := by omega
  have h2 : n % 10 < 10 := by omega
  simp only [pad2, List.cons_append, List.nil_append, scanNum, scanDigitsAux,
    digitChar_isDigit _ h1, digitChar_isDigit _ h2, digitVal_digitChar _ h1,
    digitVal_digitChar _ h2, if_true]
  have : n / 10 * 10 + n % 10 = n := by omega
  rw [this]

theorem scanNum_pad4 (n : Nat) (h : n < 10000) (rest : List Char) :
    scanNum 4 (pad4 n ++ rest) = some (n, rest) := by
  have h1 : n / 1000 < 10 := by omega
  have h2 : n / 100 % 10 < 10 := by omega
  have h3 : n / 10 % 10 < 10 := by omega
  have h4 : n % 10 < 10 := by omega
  simp only [pad4, List.cons_append, List.nil_append, scanNum, scanDigitsAux,
    digitChar_isDigit _ h1, digitChar_isDigit _ h2, digitChar_isDigit _ h3,
    digitChar_isDigit _ h4, digitVal_digitChar _ h1, digitVal_digitChar _ h2,
    digitVal_digitChar _ h3, digitVal_digitChar _ h4, if_true]
  have : ((n / 1000 * 10 + n / 100 % 10) * 10 + n / 10 % 10) * 10 + n % 10 = n := by
    omega
  rw [this]

theorem expectChar_cons_eq (c : Char) (rest : List Char) :
    expectChar c (c :: rest) = some rest := by
  simp [expectChar]

theorem skipWS_space_pad2 (n : Nat) (h : n < 100) (xs : List Char) :
    skipWS (' ' :: (pad2 n ++ xs)) = pad2 n ++ xs := by
  have h1 : n / 10 < 10 := by omega
  simp only [skipWS, pad2, List.cons_append, List.nil_append]
  rw [if_pos (by decide : isUnicodeWS ' ' = true)]
  rw [if_neg (by simp [digitChar_not_ws _ h1])]
  rfl

theorem scanNum_pad2_nil (n : Nat) (h : n < 100) :
    scanNum 2 (pad2 n) = some (n, []) := by
  have := scanNum_pad2 n h []
  simpa using this

theorem daysInMonth_le (y mo : Nat) : daysInMonth y mo ≤ 31 := by
  unfold daysInMonth
  split
  · split <;> omega
  · split <;> omega

theorem parseChronoNaive_formatTS (t : NaiveDT) (hy : t.y ≤ 9999)
    (hval : validDate t.y t.mo t.d = true) (hh : t.h ≤ 23) (hmi : t.mi ≤ 59)
    (hs : t.s ≤ 59) : parseChronoNaive (formatTS t) = some t := by
  have hval' := hval
  simp only [validDate, Bool.and_eq_true, decide_eq_true_eq] at hval'
  obtain ⟨⟨⟨hmo1, hmo2⟩, hd1⟩, hd2⟩ := hval'
  have hd31 : t.d ≤ 31 := le_trans hd2 (daysInMonth_le t.y t.mo)
  have hdata : (formatTS t).data =
      pad4 t.y ++ ('.' :: (pad2 t.mo ++ ('.' :: (pad2 t.d ++ (' ' ::
        (pad2 t.h ++ (':' :: (pad2 t.mi ++ (':' :: pad2 t.s))))))))) := by
    simp [formatTS, asString_data, List.append_assoc]
  unfold parseChronoNaive
  rw [hdata]
  simp only [scanNum_pad4 t.y (by omega), scanNum_pad2 t.mo (by omega),
    scanNum_pad2 t.d (by omega), skipWS_space_pad2 t.h (by omega),
    scanNum_pad2 t.h (by omega), scanNum_pad2 t.mi (by omega),
    scanNum_pad2_nil t.s (by omega), expectChar_cons_eq]
  simp [hval, hh, hmi, hs]

/-! ## Soundness of the seek matcher -/

theorem seekAfterPhrase_sound (g1 rest : List Char) (caps : SeekCaps)
    (h : seekAfterPhrase g1 rest = some caps) :
    ∃ c off, rest = c :: (" Updating to ".data ++ off) ∧ c ≠ '\n' ∧
      off ≠ [] ∧ (∀ x ∈ off, isDigitDot x = true) ∧
      caps = ⟨g1.asString, off.asString⟩ := by
  unfold seekAfterPhrase at h
  obtain ⟨c, r1, hr, hc, h⟩ := oneCharNotNL_sound _ _ _ h
  rw [Option.bind_eq_some] at h
  obtain ⟨r2, hs, h⟩ := h
  have hL := stripLit_sound _ _ _ hs
  obtain ⟨off, r3, hoff, hoff_ne, hoff_all, h⟩ := plusBT_sound _ _ _ _ h
  split at h
  · rename_i hr3
    cases h
    refine ⟨c, off, ?_, hc, hoff_ne, hoff_all, rfl⟩
    rw [hr, hL, hoff, hr3]
    simp
  · exact absurd h (by simp)

theorem seekAfterTag_sound (g1 rest : List Char) (caps : SeekCaps)
    (h : seekAfterTag g1 rest = some caps) :
    ∃ ws label ph tail,
      rest = ws ++ ("TVManager (".data ++ (label ++ (")] ".data ++ (ph ++ tail)))) ∧
      ws ≠ [] ∧ (∀ x ∈ ws, isSpTab x = true) ∧
      (∀ x ∈ label, anyNotNL x = true) ∧
      (ph = "Sync enforcement".data ∨ ph = "Paused drift threshold exceeded".data) ∧
      seekAfterPhrase g1 tail = some caps := by
  unfold seekAfterTag at h
  obtain ⟨ws, r1, hws, hws_ne, hws_all, h⟩ := plusBT_sound _ _ _ _ h
  rw [Option.bind_eq_some] at h
  obtain ⟨r2, hs1, h⟩ := h
  have hL1 := stripLit_sound _ _ _ hs1
  obtain ⟨label, r3, hlab, hlab_all, h⟩ := starBT_sound _ _ _ _ h
  rw [Option.bind_eq_some] at h
  obtain ⟨r4, hs2, h⟩ := h
  have hL2 := stripLit_sound _ _ _ hs2
  rcases alt2Lit_sound _ _ _ _ _ h with ⟨r5, hph, hk⟩ | ⟨r5, hph, hk⟩
  · exact ⟨ws, label, _, r5, by rw [hws, hL1, hlab, hL2, hph], hws_ne, hws_all,
      hlab_all, Or.inl rfl, hk⟩
  · exact ⟨ws, label, _, r5, by rw [hws, hL1, hlab, hL2, hph], hws_ne, hws_all,
      hlab_all, Or.inr rfl, hk⟩

theorem seekCaptures_sound (line : String) (caps : SeekCaps)
    (h : seekCaptures line = some caps) :
    ∃ ts sp1 sp2 tag ws label ph c off,
      line.data = ts ++ (" Log".data ++ (sp1 ++ ("-".data ++ (sp2 ++ ("[AT ".data ++
        (tag ++ (ws ++ ("TVManager (".data ++ (label ++ (")] ".data ++
        (ph ++ (c :: (" Updating to ".data ++ off))))))))))))) ∧
      ts ≠ [] ∧ (∀ x ∈ ts, tsClass x = true) ∧
      sp1 ≠ [] ∧ (∀ x ∈ sp1, isSp x = true) ∧
      sp2 ≠ [] ∧ (∀ x ∈ sp2, isSp x = true) ∧
      (tag = "INFO".data ∨ tag = "DEBUG".data) ∧
      ws ≠ [] ∧ (∀ x ∈ ws, isSpTab x = true) ∧
      (∀ x ∈ label, anyNotNL x = true) ∧
      (ph = "Sync enforcement".data ∨ ph = "Paused drift threshold exceeded".data) ∧
      c ≠ '\n' ∧ off ≠ [] ∧ (∀ x ∈ off, isDigitDot x = true) ∧
      caps = ⟨ts.asString, off.asString⟩ := by
  unfold seekCaptures at h
  obtain ⟨ts, r1, hL1, hts_ne, hts_all, h⟩ := plusBT_sound _ _ _ _ h
  rw [Option.bind_eq_some] at h
  obtain ⟨r2, hstrip1, h⟩ := h
  have he2 := stripLit_sound _ _ _ hstrip1
  obtain ⟨sp1, r3, he3, hsp1_ne, hsp1_all, h⟩ := plusBT_sound _ _ _ _ h
  rw [Option.bind_eq_some] at h
  obtain ⟨r4, hstrip2, h⟩ := h
  have he4 := stripLit_sound _ _ _ hstrip2
  obtain ⟨sp2, r5, he5, hsp2_ne, hsp2_all, h⟩ := plusBT_sound _ _ _ _ h
  rw [Option.bind_eq_some] at h
  obtain ⟨r6, hstrip3, h⟩ := h
  have he6 := stripLit_sound _ _ _ hstrip3
  have htag : ∃ tag r7, (tag = "INFO".data ∨ tag = "DEBUG".data) ∧
      r6 = tag ++ r7 ∧ seekAfterTag ts r7 = some caps := by
    rcases alt2Lit_sound _ _ _ _ _ h with ⟨r7, he7, hk⟩ | ⟨r7, he7, hk⟩
    · exact ⟨_, r7, Or.inl rfl, he7, hk⟩
    · exact ⟨_, r7, Or.inr rfl, he7, hk⟩
  obtain ⟨tag, r7, htg, he7, h⟩ := htag
  obtain ⟨ws, label, ph, tail, he8, hws_ne, hws_all, hlab_all, hph, h⟩ :=
    seekAfterTag_sound ts r7 caps h
  obtain ⟨c, off, he9, hc, hoff_ne, hoff_all, hcaps⟩ :=
    seekAfterPhrase_sound ts tail caps h
  refine ⟨ts, sp1, sp2, tag, ws, label, ph, c, off, ?_, hts_ne, hts_all,
    hsp1_ne, hsp1_all, hsp2_ne, hsp2_all, htg, hws_ne, hws_all, hlab_all,
    hph, hc, hoff_ne, hoff_all, hcaps⟩
  rw [hL1, he2, he3, he4, he5, he6, he7, he8, he9]

/-! ## Extractor inversion lemmas -/

theorem try_match_seek_line_inv (Z : LocalZone) (line : String) (fs : FoundSeek)
    (h : try_match_seek_line Z line = .ok (some fs)) :
    ∃ caps, seekCaptures line = some caps ∧
      parseF64 caps.offset.data = some fs.seek_offset := by
  unfold try_match_seek_line at h
  split at h
  · exact absurd h (by simp)
  · rename_i caps hc
    split at h
    · exact absurd h (by simp)
    · rename_i dt hp
      split at h
      · exact absurd h (by simp)
      · rename_i off hf
        refine ⟨caps, hc, ?_⟩
        rw [hf]
        simp only [Except.ok.injEq, Option.some.injEq] at h
        rw [← h]

theorem try_match_url_line_lineNum (Z : LocalZone) (l : String) (n : Nat)
    (u : FoundUrl) (h : try_match_url_line Z l n = .ok (some u)) :
    u.found_url_on_line = n := by
  unfold try_match_url_line at h
  split at h
  · exact absurd h (by simp)
  · rename_i caps hc
    split at h
    · exact absurd h (by simp)
    · rename_i dt hp
      simp only [Except.ok.injEq, Option.some.injEq] at h
      rw [← h]

/-- Helper: on a text whose naive parse is known, `parse_timestamp` is the
earliest-resolution of the host zone. -/
theorem parse_timestamp_resolve (Z : LocalZone) (s : String) (t : NaiveDT)
    (hp : parseChronoNaive s = some t) :
    parse_timestamp Z s =
      match mappedEarliest (Z.resolve t) with
      | none => .error "Failed to convert timestamp to local time"
      | some off => .ok ⟨t, off⟩ := by
  unfold parse_timestamp
  rw [hp]

/-- C1: evaluation of the tailing session on a concrete run refuting the
contiguous `N+1, N+2, …` numbering: a one-line file (`"a\n"`, 2 bytes)
tailed with `start_after_line = 0` (no skip read happens, cursor 0) and
one notification after a second line is appended.  The session delivers
`("a", 0)` and `("b", 0)` — the first number is `N` instead of `N+1` (the
`enumerate` index starts at 0, so `i + start_after_line` is off by one,
contradicting the source's own comment "if I skip 3 lines, I am now at
line 4"), and the notification batch restarts numbering at 0, repeating
an already-used number. -/
theorem c1_tail_numbering_code_eval :
    runTail [⟨2, some "a"⟩] 0 [[⟨2, some "a"⟩, ⟨2, some "b"⟩]] =
      some (.ok [("a", 0), ("b", 0)]) := by
  decide

/-- C2: evaluation of one notification cycle.  The whole initial file
(`"a\n"`, 2 bytes) is consumed by the skip (`start_after_line = 1`; its
read-ahead reaches EOF, discarding nothing), then two appended lines
coalesce into a single notification.  Both lines are delivered, in file
order, each exactly once — but the tailer does not re-derive line numbers
by position from the beginning of the file: it resumes reading at the
persisted cursor and numbers the batch `0, 1` (a fresh `enumerate`), not
`2, 3` as the claim requires. -/
theorem c2_notification_delivery_code_eval :
    runTail [⟨2, some "a"⟩] 1 [[⟨2, some "a"⟩, ⟨2, some "b"⟩, ⟨2, some "c"⟩]] =
      some (.ok [("b", 0), ("c", 1)]) := by
  decide

/-- C6: a line matched by `URL_REGEX` with a parseable timestamp yields a
`FoundUrl` whose `url` is the captured URL, whose `timestamp` is the parsed
timestamp and whose source line is the given line number; and the spec's
example line captures `http://example.com/s.m3u8` with local wall-clock
fields 2024-04-14 21:25:34. -/
theorem c6_url_recognizer :
    (∀ (Z : LocalZone) (line : String) (n : Nat) (caps : UrlCaps) (dt : LocalDT),
      urlCaptures line = some caps → parse_timestamp Z caps.ts = .ok dt →
      try_match_url_line Z line n = .ok (some ⟨dt, caps.url, n⟩)) ∧
    urlCaptures urlExampleLine =
      some ⟨"2024.04.14 21:25:34", "http://example.com/s.m3u8"⟩ ∧
    try_match_url_line trivialZone urlExampleLine 7 =
      .ok (some ⟨⟨⟨2024, 4, 14, 21, 25, 34⟩, 0⟩, "http://example.com/s.m3u8", 7⟩) := by
  refine ⟨?_, by decide, by decide⟩
  intro Z line n caps dt hc hp
  unfold try_match_url_line
  rw [hc]
  simp only [hp]

/-- C6 witness: the universal part applied to the example line under the
trivial zone. -/
theorem c6_witness :
    (urlCaptures urlExampleLine =
       some ⟨"2024.04.14 21:25:34", "http://example.com/s.m3u8"⟩ ∧
     parse_timestamp trivialZone "2024.04.14 21:25:34" =
       .ok ⟨⟨2024, 4, 14, 21, 25, 34⟩, 0⟩) ∧
    try_match_url_line trivialZone urlExampleLine 7 =
      .ok (some ⟨⟨⟨2024, 4, 14, 21, 25, 34⟩, 0⟩, "http://example.com/s.m3u8", 7⟩) :=
  ⟨⟨by decide, by decide⟩,
   c6_url_recognizer.1 trivialZone urlExampleLine 7
     ⟨"2024.04.14 21:25:34", "http://example.com/s.m3u8"⟩
     ⟨⟨2024, 4, 14, 21, 25, 34⟩, 0⟩ (by decide) (by decide)⟩

/-- C7 (amended): for every calendar-valid wall-clock time rendered in the
zero-padded `YYYY.MM.DD HH:MM:SS` format, the parser succeeds, round-trips
the wall-clock fields through local-time reformatting, picks the earliest
offset on a DST fold, and fails fatally on a locally-invalid (gap) time;
a text that breaks the pattern (here: dashes for dots) fails fatally.  The
original claim's converse — that any text deviating from the exact
zero-padded format fails — is refuted by `c7_counterexample`. -/
theorem c7_amended :
    (∀ (Z : LocalZone) (t : NaiveDT), t.y ≤ 9999 → validDate t.y t.mo t.d = true →
      t.h ≤ 23 → t.mi ≤ 59 → t.s ≤ 59 →
      parseChronoNaive (formatTS t) = some t ∧
      (∀ dt, parse_timestamp Z (formatTS t) = .ok dt →
        dt.naiveLocal = t ∧ formatTS dt.naiveLocal = formatTS t) ∧
      (∀ e l, Z.resolve t = .ambiguous e l →
        parse_timestamp Z (formatTS t) = .ok ⟨t, e⟩) ∧
      (Z.resolve t = .notMapped →
        parse_timestamp Z (formatTS t) =
          .error "Failed to convert timestamp to local time")) ∧
    (∀ Z : LocalZone, parse_timestamp Z "2024-04-22 17:55:53" =
      .error "Failed to parse timestamp") := by
  constructor
  · intro Z t hy hval hh hmi hs
    have hp := parseChronoNaive_formatTS t hy hval hh hmi hs
    refine ⟨hp, ?_, ?_, ?_⟩
    · intro dt hdt
      rw [parse_timestamp_resolve Z (formatTS t) t hp] at hdt
      cases hres : Z.resolve t with
      | notMapped =>
        rw [hres] at hdt
        exact absurd hdt (by simp [mappedEarliest])
      | unique off =>
        rw [hres] at hdt
        simp only [mappedEarliest, Except.ok.injEq] at hdt
        constructor
        · rw [← hdt]
        · rw [← hdt]
      | ambiguous e l =>
        rw [hres] at hdt
        simp only [mappedEarliest, Except.ok.injEq] at hdt
        constructor
        · rw [← hdt]
        · rw [← hdt]
    · intro e l hres
      rw [parse_timestamp_resolve Z (formatTS t) t hp, hres]
      rfl
    · intro hres
      rw [parse_timestamp_resolve Z (formatTS t) t hp, hres]
      rfl
  · intro Z
    have hnone : parseChronoNaive "2024-04-22 17:55:53" = none := by decide
    unfold parse_timestamp
    rw [hnone]

/-- C7 counterexample: the text `2024.4.22 7:5:3` is not in the exact
zero-padded `YYYY.MM.DD HH:MM:SS` format, yet the parser accepts it
(chrono's numeric items do not require padding), refuting "for text not in
this format … it fails with a fatal parse error". -/
theorem c7_counterexample :
    parseChronoNaive "2024.4.22 7:5:3" = some ⟨2024, 4, 22, 7, 5, 3⟩ ∧
    parse_timestamp trivialZone "2024.4.22 7:5:3" =
      .ok ⟨⟨2024, 4, 22, 7, 5, 3⟩, 0⟩ ∧
    exactTimestampFormat "2024.4.22 7:5:3" = false :=
  ⟨by decide, by decide, by decide⟩

/-- C7 witness: the amended theorem applied to 2024-04-14 21:25:34 under
the trivial zone. -/
theorem c7_witness :
    (validDate 2024 4 14 = true ∧ (2024 : Nat) ≤ 9999) ∧
    (parseChronoNaive (formatTS ⟨2024, 4, 14, 21, 25, 34⟩) =
       some ⟨2024, 4, 14, 21, 25, 34⟩ ∧
     (∀ dt, parse_timestamp trivialZone (formatTS ⟨2024, 4, 14, 21, 25, 34⟩) = .ok dt →
       dt.naiveLocal = ⟨2024, 4, 14, 21, 25, 34⟩ ∧
       formatTS dt.naiveLocal = formatTS ⟨2024, 4, 14, 21, 25, 34⟩) ∧
     (∀ e l, trivialZone.resolve ⟨2024, 4, 14, 21, 25, 34⟩ = .ambiguous e l →
       parse_timestamp trivialZone (formatTS ⟨2024, 4, 14, 21, 25, 34⟩) =
         .ok ⟨⟨2024, 4, 14, 21, 25, 34⟩, e⟩) ∧
     (trivialZone.resolve ⟨2024, 4, 14, 21, 25, 34⟩ = .notMapped →
       parse_timestamp trivialZone (formatTS ⟨2024, 4, 14, 21, 25, 34⟩) =
         .error "Failed to convert timestamp to local time")) :=
  ⟨⟨by decide, by decide⟩,
   c7_amended.1 trivialZone ⟨2024, 4, 14, 21, 25, 34⟩ (by decide) (by decide)
     (by decide) (by decide) (by decide)⟩

/-- C8: a line matched by neither regex produces no event from either
recognizer and raises no error — both extractors return a silent
non-match. -/
theorem c8_unmatched_lines (Z : LocalZone) (line : String) (n : Nat)
    (hu : urlCaptures line = none) (hs : seekCaptures line = none) :
    try_match_url_line Z line n = .ok none ∧
    try_match_seek_line Z line = .ok none := by
  constructor
  · unfold try_match_url_line
    rw [hu]
  · unfold try_match_seek_line
    rw [hs]

/-- C8 witness: a plain line matching neither pattern. -/
theorem c8_witness :
    (urlCaptures "hello world" = none ∧ seekCaptures "hello world" = none) ∧
    (try_match_url_line trivialZone "hello world" 1 = .ok none ∧
     try_match_seek_line trivialZone "hello world" = .ok none) :=
  ⟨⟨by decide, by decide⟩,
   c8_unmatched_lines trivialZone "hello world" 1 (by decide) (by decide)⟩

/-- C5 (amended): a line matches the seek recognizer only when it consists
of a timestamp-class run, the ` Log` marker with space runs and hyphen, the
`[AT ` tag (`INFO` or `DEBUG`), whitespace, `TVManager (`label`)] `, one of
the two literal phrases, then — because the `.` in `SEEK_REGEX` is an
unescaped metacharacter — *any single non-newline character* (not
necessarily a literal period), the literal ` Updating to `, and a
digits-and-dots run that parses as a float, with no trailing characters
after it; and the spec's example line yields `seek_offset = 116.47`.  The
original claim's "literal period" is refuted by `c5_counterexample`. -/
theorem c5_amended :
    (∀ (Z : LocalZone) (line : String) (fs : FoundSeek),
      try_match_seek_line Z line = .ok (some fs) →
      ∃ ts sp1 sp2 tag ws label ph c off,
        line.data = ts ++ (" Log".data ++ (sp1 ++ ("-".data ++ (sp2 ++ ("[AT ".data ++
          (tag ++ (ws ++ ("TVManager (".data ++ (label ++ (")] ".data ++
          (ph ++ (c :: (" Updating to ".data ++ off))))))))))))) ∧
        ts ≠ [] ∧ (∀ x ∈ ts, tsClass x = true) ∧
        sp1 ≠ [] ∧ (∀ x ∈ sp1, isSp x = true) ∧
        sp2 ≠ [] ∧ (∀ x ∈ sp2, isSp x = true) ∧
        (tag = "INFO".data ∨ tag = "DEBUG".data) ∧
        ws ≠ [] ∧ (∀ x ∈ ws, isSpTab x = true) ∧
        (∀ x ∈ label, anyNotNL x = true) ∧
        (ph = "Sync enforcement".data ∨ ph = "Paused drift threshold exceeded".data) ∧
        c ≠ '\n' ∧ off ≠ [] ∧ (∀ x ∈ off, isDigitDot x = true) ∧
        parseF64 off = some fs.seek_offset) ∧
    try_match_seek_line trivialZone seekExampleLine =
      .ok (some ⟨⟨⟨2024, 4, 22, 17, 55, 53⟩, 0⟩, mkRat 11647 100⟩) := by
  constructor
  · intro Z line fs h
    obtain ⟨caps, hc, hoffv⟩ := try_match_seek_line_inv Z line fs h
    obtain ⟨ts, sp1, sp2, tag, ws, label, ph, c, off, hdecomp, h1, h2, h3, h4, h5, h6,
      h7, h8, h9, h10, h11, h12, h13, h14, hcaps⟩ := seekCaptures_sound line caps hc
    refine ⟨ts, sp1, sp2, tag, ws, label, ph, c, off, hdecomp, h1, h2, h3, h4, h5, h6,
      h7, h8, h9, h10, h11, h12, h13, h14, ?_⟩
    rw [hcaps] at hoffv
    simpa [asString_data] using hoffv
  · decide

/-- C5 counterexample: replacing the period after `Sync enforcement` with
an `X` still matches the seek recognizer and still yields 116.47, although
the line contains neither recognized phrase followed by a literal period —
so "followed by a literal period" is false of the code. -/
theorem c5_counterexample :
    try_match_seek_line trivialZone seekBadLine =
      .ok (some ⟨⟨⟨2024, 4, 22, 17, 55, 53⟩, 0⟩, mkRat 11647 100⟩) ∧
    containsSub "Sync enforcement.".data seekBadLine.data = false ∧
    containsSub "Paused drift threshold exceeded.".data seekBadLine.data = false :=
  ⟨by decide, by decide, by decide⟩

/-- C5 witness: the amended decomposition applied to the spec's example
line. -/
theorem c5_witness :
    try_match_seek_line trivialZone seekExampleLine =
      .ok (some ⟨⟨⟨2024, 4, 22, 17, 55, 53⟩, 0⟩, mkRat 11647 100⟩) ∧
    (∃ ts sp1 sp2 tag ws label ph c off,
      seekExampleLine.data = ts ++ (" Log".data ++ (sp1 ++ ("-".data ++ (sp2 ++ ("[AT ".data ++
        (tag ++ (ws ++ ("TVManager (".data ++ (label ++ (")] ".data ++
        (ph ++ (c :: (" Updating to ".data ++ off))))))))))))) ∧
      ts ≠ [] ∧ (∀ x ∈ ts, tsClass x = true) ∧
      sp1 ≠ [] ∧ (∀ x ∈ sp1, isSp x = true) ∧
      sp2 ≠ [] ∧ (∀ x ∈ sp2, isSp x = true) ∧
      (tag = "INFO".data ∨ tag = "DEBUG".data) ∧
      ws ≠ [] ∧ (∀ x ∈ ws, isSpTab x = true) ∧
      (∀ x ∈ label, anyNotNL x = true) ∧
      (ph = "Sync enforcement".data ∨ ph = "Paused drift threshold exceeded".data) ∧
      c ≠ '\n' ∧ off ≠ [] ∧ (∀ x ∈ off, isDigitDot x = true) ∧
      parseF64 off = some (mkRat 11647 100)) :=
  ⟨by decide,
   c5_amended.1 trivialZone seekExampleLine
     ⟨⟨⟨2024, 4, 22, 17, 55, 53⟩, 0⟩, mkRat 11647 100⟩ (by decide)⟩

/-- C3: whenever a scan returns `UrlAndSeek`, the seek comes from a line
number at or after the URL's line (the seek search starts at the URL's own
line) and is the *last* seek match there: no line strictly after it
produces a seek event. -/
theorem c3_seek_at_or_after_url (Z : LocalZone) (file : List (Option String))
    (u : FoundUrl) (s : FoundSeek) (c : Nat)
    (h : get_latest_url_and_seek Z file = .ok (.UrlAndSeek u s c)) :
    ∃ k, u.found_url_on_line ≤ k ∧ seekHit Z file k s ∧
      ∀ j s', k < j → ¬ seekHit Z file j s' := by
  unfold get_latest_url_and_seek at h
  split at h
  · exact absurd h (by simp)
  · exact absurd h (by simp)
  · rename_i u0 c0 hurl
    split at h
    · exact absurd h (by simp)
    · exact absurd h (by simp)
    · rename_i s0 hseek
      simp only [Except.ok.injEq, UrlAndSeekResult.UrlAndSeek.injEq] at h
      obtain ⟨hu, hs0, hc0⟩ := h
      subst hu
      subst hs0
      unfold find_last_seek at hseek
      rw [findLastSeekAux_eq] at hseek
      rcases lastHitAuxE_char _ _ _ _ _ hseek with ⟨hres, _⟩ | ⟨b, i, hi, hres, hhit, hlater⟩
      · exact absurd hres (by simp)
      · have hb : s0 = b := Option.some.inj hres
        subst hb
        simp only [seekStep] at hhit hlater
        by_cases hin : 0 + i + 1 < u0.found_url_on_line
        · rw [if_pos hin] at hhit
          exact absurd hhit (by simp)
        · rw [if_neg hin] at hhit
          refine ⟨i + 1, by omega, ⟨by omega, (okLines file).get ⟨i, hi⟩, ?_, hhit⟩, ?_⟩
          · have hii : i + 1 - 1 = i := by omega
            rw [hii]
            exact List.get?_eq_get hi
          · intro j s' hj hhitj
            obtain ⟨hj1, l, hget, htm⟩ := hhitj
            rw [List.get?_eq_some] at hget
            obtain ⟨hlen, hl⟩ := hget
            have hlater' := hlater (j - 1) hlen (by omega)
            rw [if_neg (by omega)] at hlater'
            rw [hl] at hlater'
            exact absurd (htm.symm.trans hlater') (by simp)

/-- C3 witness: a file with the URL example on line 1 and the seek example
on line 2. -/
theorem c3_witness :
    get_latest_url_and_seek trivialZone [some urlExampleLine, some seekExampleLine] =
      .ok (.UrlAndSeek ⟨⟨⟨2024, 4, 14, 21, 25, 34⟩, 0⟩, "http://example.com/s.m3u8", 1⟩
        ⟨⟨⟨2024, 4, 22, 17, 55, 53⟩, 0⟩, mkRat 11647 100⟩ 2) ∧
    (∃ k, (⟨⟨⟨2024, 4, 14, 21, 25, 34⟩, 0⟩, "http://example.com/s.m3u8", 1⟩ :
        FoundUrl).found_url_on_line ≤ k ∧
      seekHit trivialZone [some urlExampleLine, some seekExampleLine] k
        ⟨⟨⟨2024, 4, 22, 17, 55, 53⟩, 0⟩, mkRat 11647 100⟩ ∧
      ∀ j s', k < j →
        ¬ seekHit trivialZone [some urlExampleLine, some seekExampleLine] j s') :=
  ⟨by decide,
   c3_seek_at_or_after_url trivialZone [some urlExampleLine, some seekExampleLine]
     ⟨⟨⟨2024, 4, 14, 21, 25, 34⟩, 0⟩, "http://example.com/s.m3u8", 1⟩
     ⟨⟨⟨2024, 4, 22, 17, 55, 53⟩, 0⟩, mkRat 11647 100⟩ 2 (by decide)⟩

/-- Characterisation of the URL pass on a fully-decodable file: the count
is the number of lines; a returned URL is a hit at its own line number with
no hit on any later line; `none` means no line hits at all. -/
theorem find_last_url_char (Z : LocalZone) (lines : List String)
    (ou : Option FoundUrl) (c : Nat)
    (h : find_last_url Z (lines.map some) = .ok (ou, c)) :
    c = lines.length ∧
    (∀ u, ou = some u → urlHit Z lines u.found_url_on_line u ∧
      ∀ j u', u.found_url_on_line < j → ¬ urlHit Z lines j u') ∧
    (ou = none → ∀ k u', ¬ urlHit Z lines k u') := by
  unfold find_last_url at h
  rw [findLastUrlAux_eq, okLines_map_some] at h
  cases hlh : lastHitAuxE (urlStep Z) lines 0 none with
  | error e =>
    rw [hlh] at h
    exact absurd h (by simp [exceptMap_error])
  | ok r =>
    rw [hlh, exceptMap_ok] at h
    simp only [Except.ok.injEq, Prod.mk.injEq] at h
    obtain ⟨hr, hc⟩ := h
    subst hr
    refine ⟨by omega, ?_, ?_⟩
    · intro u hu
      subst hu
      rcases lastHitAuxE_char _ _ _ _ _ hlh with ⟨hres, _⟩ | ⟨b, i, hi, hres, hhit, hlater⟩
      · exact absurd hres (by simp)
      · have hb : u = b := Option.some.inj hres
        subst hb
        simp only [urlStep] at hhit hlater
        have hnum := try_match_url_line_lineNum Z _ _ _ hhit
        constructor
        · refine ⟨by omega, lines.get ⟨i, hi⟩, ?_, ?_⟩
          · have hii : u.found_url_on_line - 1 = i := by omega
            rw [hii]
            exact List.get?_eq_get hi
          · rw [hnum]
            exact hhit
        · intro j u' hj hhitj
          obtain ⟨hj1, l, hget, htm⟩ := hhitj
          rw [List.get?_eq_some] at hget
          obtain ⟨hlen, hl⟩ := hget
          have hlater' := hlater (j - 1) hlen (by omega)
          rw [hl] at hlater'
          have hjj : 0 + (j - 1) + 1 = j := by omega
          rw [hjj] at hlater'
          exact absurd (htm.symm.trans hlater') (by simp)
    · intro h0
      subst h0
      intro k u' hhitk
      rcases lastHitAuxE_char _ _ _ _ _ hlh with ⟨_, hall⟩ | ⟨b, i, hi, hres, _, _⟩
      · obtain ⟨hk1, l, hget, htm⟩ := hhitk
        rw [List.get?_eq_some] at hget
        obtain ⟨hlen, hl⟩ := hget
        have hall' := hall (k - 1) hlen
        simp only [urlStep] at hall'
        rw [hl] at hall'
        have hkk : 0 + (k - 1) + 1 = k := by omega
        rw [hkk] at hall'
        exact absurd (htm.symm.trans hall') (by simp)
      · exact absurd hres (by simp)

/-- C4 (amended): the URL pass applies the recognizer to every line
start-to-end and retains the last match (at the highest line number, with
no match after it); every `ScanResult` variant carries the number of lines
the reader yields — each newline-terminated line, plus a final
unterminated fragment if present (hence not always the newline count, see
`c4_counterexample`); an empty file gives `Nothing` with count 0. -/
theorem c4_amended :
    (∀ (Z : LocalZone) (contents : List Char) (res : UrlAndSeekResult),
      scanContents Z contents = .ok res →
      resLineCount res = (linesOf contents).length ∧
      (∀ u, resUrl res = some u →
        urlHit Z (linesOf contents) u.found_url_on_line u ∧
        ∀ j u', u.found_url_on_line < j → ¬ urlHit Z (linesOf contents) j u') ∧
      (resUrl res = none → ∀ k u', ¬ urlHit Z (linesOf contents) k u')) ∧
    (∀ Z : LocalZone, scanContents Z [] = .ok (.Nothing 0)) := by
  constructor
  · intro Z contents res h
    unfold scanContents get_latest_url_and_seek at h
    split at h
    · exact absurd h (by simp)
    · rename_i c0 hurl
      have hres : UrlAndSeekResult.Nothing c0 = res := by simpa using h
      subst hres
      obtain ⟨hc, _, hnone⟩ := find_last_url_char Z (linesOf contents) none c0 hurl
      refine ⟨by simpa [resLineCount] using hc, ?_, ?_⟩
      · intro u hu
        exact absurd hu (by simp [resUrl])
      · intro _
        exact hnone rfl
    · rename_i u0 c0 hurl
      obtain ⟨hc, hsome, _⟩ := find_last_url_char Z (linesOf contents) (some u0) c0 hurl
      obtain ⟨hhit, hlater⟩ := hsome u0 rfl
      split at h
      · exact absurd h (by simp)
      · have hres : UrlAndSeekResult.Url u0 c0 = res := by simpa using h
        subst hres
        refine ⟨by simpa [resLineCount] using hc, ?_, ?_⟩
        · intro u hu
          simp only [resUrl, Option.some.injEq] at hu
          subst hu
          exact ⟨hhit, hlater⟩
        · intro h0
          exact absurd h0 (by simp [resUrl])
      · rename_i s0 hseek
        have hres : UrlAndSeekResult.UrlAndSeek u0 s0 c0 = res := by simpa using h
        subst hres
        refine ⟨by simpa [resLineCount] using hc, ?_, ?_⟩
        · intro u hu
          simp only [resUrl, Option.some.injEq] at hu
          subst hu
          exact ⟨hhit, hlater⟩
        · intro h0
          exact absurd h0 (by simp [resUrl])
  · intro Z
    rfl

/-- C4 counterexample: the two-line contents `x\ny` (second line not
newline-terminated) scan to `Nothing` with count 2, but contain only one
newline-terminated line — the reported count is not the number of
newline-terminated lines. -/
theorem c4_counterexample :
    scanContents trivialZone ['x', '\n', 'y'] = .ok (.Nothing 2) ∧
    countNewlines ['x', '\n', 'y'] = 1 :=
  ⟨by decide, by decide⟩

/-- C4 witness: the amended theorem applied to a one-line file holding the
URL example line. -/
theorem c4_witness :
    scanContents trivialZone (urlExampleLine.data ++ ['\n']) =
      .ok (.Url ⟨⟨⟨2024, 4, 14, 21, 25, 34⟩, 0⟩, "http://example.com/s.m3u8", 1⟩ 1) ∧
    (resLineCount (.Url ⟨⟨⟨2024, 4, 14, 21, 25, 34⟩, 0⟩, "http://example.com/s.m3u8", 1⟩ 1) =
       (linesOf (urlExampleLine.data ++ ['\n'])).length ∧
     (∀ u, resUrl (.Url ⟨⟨⟨2024, 4, 14, 21, 25, 34⟩, 0⟩, "http://example.com/s.m3u8", 1⟩ 1) =
         some u →
       urlHit trivialZone (linesOf (urlExampleLine.data ++ ['\n'])) u.found_url_on_line u ∧
       ∀ j u', u.found_url_on_line < j →
         ¬ urlHit trivialZone (linesOf (urlExampleLine.data ++ ['\n'])) j u') ∧
     (resUrl (.Url ⟨⟨⟨2024, 4, 14, 21, 25, 34⟩, 0⟩, "http://example.com/s.m3u8", 1⟩ 1) =
         none →
       ∀ k u', ¬ urlHit trivialZone (linesOf (urlExampleLine.data ++ ['\n'])) k u')) :=
  ⟨by decide,
   c4_amended.1 trivialZone (urlExampleLine.data ++ ['\n'])
     (.Url ⟨⟨⟨2024, 4, 14, 21, 25, 34⟩, 0⟩, "http://example.com/s.m3u8", 1⟩ 1) (by decide)⟩

/-- C9: evaluation at the failing input of the read-ahead bug.  A
three-line file `"a\nb\nc\n"` (6 bytes) tailed with `start_after_line = 1`
should, per the claim, skip exactly line 1 and deliver lines 2 and 3 in
the initial catch-up.  Instead `skip_n_lines`'s `BufReader` over the
shared `&File` read-ahead-buffers the whole 6-byte file while consuming
line 1 and drops the buffer, leaving the cursor at EOF: the initial
catch-up delivers *nothing*, and lines 2 and 3 are silently lost.  (The
claim's other half — the skip panics iff the file has fewer than `N`
lines — does hold, via the `init.length < start_after_line` guard of
`runTail`, but the delivery half fails.) -/
theorem c9_skip_readahead_code_eval :
    runTail [⟨2, some "a"⟩, ⟨2, some "b"⟩, ⟨2, some "c"⟩] 1 [] =
      some (.ok []) := by
  decide

/-- C10: a line that fails to read/decode is treated differently on the
two paths.  The history scan (both passes) behaves exactly as on the file
with the failed lines removed, so they are neither counted nor numbered.
During live tailing, a failed line that one of `tail_file`'s reading loops
actually reads is `line.unwrap()`, a fatal panic: the third conjunct
covers the initial catch-up (tailing from line 0, where no skip read
happens, so every line of the file is read) and the fourth covers the
notification loop (a bad line appended after the initial read).  A line
discarded unread by `skip_n_lines`'s read-ahead is reached by neither
loop and is outside this claim. -/
theorem c10_decode_error_paths (Z : LocalZone) :
    (∀ file, find_last_url Z file = find_last_url Z ((okLines file).map some)) ∧
    (∀ file n, find_last_seek Z file n = find_last_seek Z ((okLines file).map some) n) ∧
    (∀ (init : List RawLine) (snaps : List (List RawLine)),
      (∃ l ∈ init, l.decoded = none) →
      runTail init 0 snaps = some (.error .badLine)) ∧
    (∀ (init app : List RawLine), (∀ l ∈ init, 1 ≤ l.bytes) →
      (∀ l ∈ init, l.decoded ≠ none) → (∃ l ∈ app, l.decoded = none) →
      runTail init 0 [init ++ app] = some (.error .badLine)) := by
  refine ⟨?_, ?_, ?_, ?_⟩
  · intro file
    unfold find_last_url
    rw [findLastUrlAux_eq, findLastUrlAux_eq, okLines_map_some]
  · intro file n
    unfold find_last_seek
    rw [findLastSeekAux_eq, findLastSeekAux_eq, okLines_map_some]
  · intro init snaps hbad
    unfold runTail
    rw [if_neg (by omega)]
    simp only [skipCursor_zero, linesFrom_zero, readLines_badLine init 0 hbad]
  · intro init app hbytes hdec hbad
    unfold runTail
    rw [if_neg (by omega)]
    obtain ⟨ds, hds⟩ := readLines_ok_decodable init 0 hdec
    have ht : tailSteps (totalBytes init) [init ++ app] = some (.error .badLine) := by
      simp only [tailSteps, linesFrom_append init app hbytes,
        readLines_badLine app 0 hbad]
    simp only [skipCursor_zero, linesFrom_zero, hds, ht]

/-- C10 witness: a decodable one-line file, then a line failing to decode
is appended and the notification read panics on it. -/
theorem c10_witness :
    ((∀ l ∈ [(⟨2, some "a"⟩ : RawLine)], 1 ≤ l.bytes) ∧
     (∀ l ∈ [(⟨2, some "a"⟩ : RawLine)], l.decoded ≠ none) ∧
     (∃ l ∈ [(⟨2, none⟩ : RawLine)], l.decoded = none)) ∧
    runTail [⟨2, some "a"⟩] 0 [[(⟨2, some "a"⟩ : RawLine)] ++ [⟨2, none⟩]] =
      some (.error .badLine) :=
  ⟨⟨by decide, by decide, by decide⟩,
   (c10_decode_error_paths trivialZone).2.2.2 [⟨2, some "a"⟩] [⟨2, none⟩]
     (by decide) (by decide) (by decide)⟩
